import Mathlib

/-!
Shallow embedding of the Hologram user-identity cache
(src/server/usercache.go): the `User` model, the LDAP and keys-file
cache engines' `Update`, the key-scan verification, and the
miss-triggered refresh-and-retry `Authenticate` protocol.

External collaborators (the LDAP transport, the keys-file adapter, the
SSH key-parsing and signature-verification library) are modelled as
injected parameters, exactly as the Go code receives them through the
`LDAPImplementation`, `KeysFile` and `golang.org/x/crypto/ssh`
interfaces.  Go maps are modelled as association lists whose lookup
semantics match Go map indexing; Go `panic` on a failed type assertion
is modelled as an `Except Unit` abort.
-/

namespace Hologram

/-- A challenge is an opaque byte string. -/
abbrev Challenge := List Nat

/-- An `ssh.Signature` is opaque to this code; only `Verify` consumes it. -/
abbrev SSHSig := List Nat

/-- `ssh.PublicKey` as this code uses it: verification material with a
`Verify(challenge, sig)` operation.  `verify = true` models a nil
verification error. -/
structure SSHPublicKey where
  verify : Challenge → SSHSig → Bool

/-- `User` from usercache.go. -/
structure User where
  Username : String
  SSHKeys : List SSHPublicKey
  ARNs : List String
  DefaultRole : String

/-- The SSH key-parsing collaborators from `encoding/base64` and
`golang.org/x/crypto/ssh`: `DecodeString` (its error is discarded by the
code, so only the byte output matters), `ParsePublicKey` on the decoded
bytes, and `ParseAuthorizedKey` on the raw string. -/
structure SSHParser where
  b64decode : String → List Nat
  parsePublicKey : List Nat → Option SSHPublicKey
  parseAuthorizedKey : String → Option SSHPublicKey

/-- Both engines parse one key value the same way: base64-decode and try
`ssh.ParsePublicKey`; on error fall back to `ssh.ParseAuthorizedKey` on
the raw value; if that also fails the key is skipped. -/
def parseKey (p : SSHParser) (s : String) : Option SSHPublicKey :=
  match p.parsePublicKey (p.b64decode s) with
  | some k => some k
  | none => p.parseAuthorizedKey s

/-- Go map read `m[k]` (present case): first binding for `k`. -/
def lookupAssoc {α : Type} (l : List (String × α)) (k : String) : Option α :=
  (l.find? (fun p => p.1 = k)).map (fun p => p.2)

/-- Go map write `m[k] = v`: replaces any previous binding for `k`. -/
def insertAssoc {α : Type} (l : List (String × α)) (k : String) (v : α) :
    List (String × α) :=
  (k, v) :: l.filter (fun p => p.1 ≠ k)

/-- An LDAP search-result entry: distinguished name plus attribute
value lists, as exposed by the `nmcclain/ldap` entry type. -/
structure LDAPEntry where
  dn : String
  attrs : List (String × List String)

/-- `entry.GetAttributeValues(a)`: all values of attribute `a`, empty
when the attribute is absent. -/
def getAttributeValues (e : LDAPEntry) (a : String) : List String :=
  (lookupAssoc e.attrs a).getD []

/-- `entry.GetAttributeValue(a)`: the first value of attribute `a`, or
the empty string when absent. -/
def getAttributeValue (e : LDAPEntry) (a : String) : String :=
  (getAttributeValues e a).headD ""

/-- Configuration fields of `ldapUserCache` that `Update` reads. -/
structure LdapCfg where
  userAttr : String
  enableServerRoles : Bool
  roleAttribute : String
  defaultRole : String
  defaultRoleAttr : String

/-- Mutable state of `ldapUserCache`: the `users` map and the
`groups` map. -/
structure LdapState where
  users : List (String × User)
  groups : List (String × List String)

/-- One iteration of the user-entry loop in `ldapUserCache.Update`:
parse the keys (skipping unparseable values), resolve the default role
and the ARNs, and store the user keyed by username. -/
def ldapProcessEntry (cfg : LdapCfg) (p : SSHParser) (groups : List (String × List String))
    (users : List (String × User)) (e : LDAPEntry) : List (String × User) :=
  let username := getAttributeValue e cfg.userAttr
  let userKeys := (getAttributeValues e "sshPublicKey").filterMap (parseKey p)
  let userDefaultRole :=
    if cfg.enableServerRoles then
      let v := getAttributeValue e cfg.defaultRoleAttr
      if v = "" then cfg.defaultRole else v
    else cfg.defaultRole
  let arns :=
    if cfg.enableServerRoles then
      (getAttributeValues e "memberOf").foldl
        (fun acc g => acc ++ (lookupAssoc groups g).getD []) []
    else []
  insertAssoc users username
    { Username := username, SSHKeys := userKeys, ARNs := arns,
      DefaultRole := userDefaultRole }

/-- The group-search phase at the top of `ldapUserCache.Update`: when
role support is enabled, fold the group search result into the live
`luc.groups` map (or propagate the search error); when disabled, no
group search is issued and the map is untouched. -/
def ldapGroupPhase (cfg : LdapCfg) (st : LdapState)
    (groupRes : Except String (List LDAPEntry)) :
    Except String (List (String × List String)) :=
  if cfg.enableServerRoles then
    groupRes.map (fun gentries =>
      gentries.foldl (fun g e => insertAssoc g e.dn (getAttributeValues e cfg.roleAttribute))
        st.groups)
  else Except.ok st.groups

/-- `ldapUserCache.Update`, parameterized by the two search outcomes the
injected `LDAPImplementation` would produce.  Returns the state as left
behind by the call together with the returned error: the code mutates
`luc.groups` and `luc.users` in place, so a failing user search still
keeps the group additions already made. -/
def ldapUpdate (cfg : LdapCfg) (p : SSHParser) (st : LdapState)
    (groupRes : Except String (List LDAPEntry))
    (searchRes : Except String (List LDAPEntry)) : LdapState × Option String :=
  match ldapGroupPhase cfg st groupRes with
  | .error e => (st, some e)
  | .ok groups =>
    match searchRes with
    | .error e => ({ st with groups := groups }, some e)
    | .ok entries =>
      ({ users := entries.foldl (ldapProcessEntry cfg p groups) st.users,
         groups := groups }, none)

/-- `ldapUserCache._verify`: scan every cached user's keys and return
the first user one of whose keys verifies the signature over the
challenge; `(nil, nil)` when none does. -/
def ldapVerify (users : List (String × User)) (challenge : Challenge) (sig : SSHSig) :
    Option User :=
  users.findSome? (fun q =>
    if q.2.SSHKeys.any (fun key => key.verify challenge sig) then some q.2 else none)

/-- `ldapUserCache.Authenticate`: scan, and on a miss run `Update` once
and rescan.  Besides the Go `(retUser, err)` result it returns the state
after the call and the number of `Update` invocations made. -/
def ldapAuthenticate (cfg : LdapCfg) (p : SSHParser) (st : LdapState)
    (groupRes searchRes : Except String (List LDAPEntry))
    (username : String) (challenge : Challenge) (sig : SSHSig) :
    (Option User × Option String) × LdapState × Nat :=
  match ldapVerify st.users challenge sig with
  | some u => ((some u, none), st, 0)
  | none =>
    match ldapUpdate cfg p st groupRes searchRes with
    | (st', some e) => ((none, some e), st', 1)
    | (st', none) => ((ldapVerify st'.users challenge sig, none), st', 1)

/-- A value in a keys-file attribute record (`map[string]interface{}`):
either a string or a list of values. -/
inductive AttrValue where
  | str : String → AttrValue
  | list : List AttrValue → AttrValue

/-- One keys-file record: the loosely-typed attribute map attached to a
key string. -/
abbrev AttrRecord := List (String × AttrValue)

/-- Configuration fields of `keysFileUserCache` that `Update` reads. -/
structure KfCfg where
  userAttr : String
  enableServerRoles : Bool
  roleAttr : String
  defaultRole : String
  defaultRoleAttr : String

/-- The role loop in `keysFileUserCache.Update`: each element of the
role list is asserted to be a string (`r.(string)` — a non-string
panics, modelled by `Except.error ()`), appended to the user's ARNs
unless the `(username, role)` pair is already in the per-update seen
set, and marked seen. -/
def kfProcessRoles (username : String) (roles : List AttrValue)
    (arns : List String) (seen : List (String × String)) :
    Except Unit (List String × List (String × String)) :=
  match roles with
  | [] => .ok (arns, seen)
  | .str r :: rest =>
    if (username, r) ∈ seen then kfProcessRoles username rest arns seen
    else kfProcessRoles username rest (arns ++ [r]) ((username, r) :: seen)
  | _ :: _ => .error ()

/-- One iteration of the record loop in `keysFileUserCache.Update`.
`userData[userAttr].(string)` is an unchecked type assertion: a record
whose attribute map lacks the username attribute, or holds a non-string
there, panics (`Except.error ()`).  The two-valued assertion on the
default-role attribute cannot panic.  An unparseable key skips the
record (so a freshly created accumulating user is discarded); with role
support enabled, `userData[roleAttr].([]interface{})` is again an
unchecked assertion that panics on a missing or non-list value. -/
def kfProcessRecord (cfg : KfCfg) (p : SSHParser)
    (users : List (String × User)) (seen : List (String × String))
    (key : String) (userData : AttrRecord) :
    Except Unit (List (String × User) × List (String × String)) :=
  match lookupAssoc userData cfg.userAttr with
  | some (.str username) =>
    let defaultRole :=
      match lookupAssoc userData cfg.defaultRoleAttr with
      | some (.str s) => if s = "" then cfg.defaultRole else s
      | _ => cfg.defaultRole
    let user :=
      match lookupAssoc users username with
      | some u => u
      | none => { Username := username, SSHKeys := [], ARNs := [],
                  DefaultRole := defaultRole }
    match parseKey p key with
    | none => .ok (users, seen)
    | some sshKey =>
      let user := { user with SSHKeys := user.SSHKeys ++ [sshKey] }
      if cfg.enableServerRoles then
        match lookupAssoc userData cfg.roleAttr with
        | some (.list roles) =>
          match kfProcessRoles username roles user.ARNs seen with
          | .error () => .error ()
          | .ok (arns, seen') =>
            .ok (insertAssoc users username { user with ARNs := arns }, seen')
        | _ => .error ()
      else
        .ok (insertAssoc users username user, seen)
  | _ => .error ()

/-- The record loop of `keysFileUserCache.Update` over the whole keys
map, threading the fresh users map and the per-update seen set. -/
def kfProcessAll (cfg : KfCfg) (p : SSHParser)
    (recs : List (String × AttrRecord)) (users : List (String × User))
    (seen : List (String × String)) : Except Unit (List (String × User)) :=
  match recs with
  | [] => .ok users
  | (key, userData) :: rest =>
    match kfProcessRecord cfg p users seen key userData with
    | .error () => .error ()
    | .ok (users', seen') => kfProcessAll cfg p rest users' seen'

/-- How a `keysFileUserCache.Update` call ends: normal return, an error
return, or a runtime panic from an unchecked type assertion. -/
inductive KfOutcome where
  | ok : KfOutcome
  | err : String → KfOutcome
  | panicked : KfOutcome
deriving DecidableEq

/-- `keysFileUserCache.Update`, parameterized by the outcomes of the
injected adapter's `Load()` and `Keys()` calls.  A fresh users map and
seen set are built from scratch; `kfuc.users` is only assigned after the
whole loop succeeds, so an error or a panic leaves the published map as
it was. -/
def kfUpdate (cfg : KfCfg) (p : SSHParser) (users : List (String × User))
    (loadRes : Option String) (keysRes : Except String (List (String × AttrRecord))) :
    List (String × User) × KfOutcome :=
  match loadRes with
  | some e => (users, .err e)
  | none =>
    match keysRes with
    | .error e => (users, .err e)
    | .ok recs =>
      match kfProcessAll cfg p recs [] [] with
      | .error () => (users, .panicked)
      | .ok users' => (users', .ok)

/-- `keysFileUserCache.verify`: same scan as the LDAP variant. -/
def kfVerify (users : List (String × User)) (challenge : Challenge) (sig : SSHSig) :
    Option User :=
  users.findSome? (fun q =>
    if q.2.SSHKeys.any (fun key => key.verify challenge sig) then some q.2 else none)

/-- `keysFileUserCache.Authenticate`: scan, and on a miss run `Update`
once and rescan.  Returns the `(user, err)` pair, the users map after
the call, and the number of `Update` invocations; a panic during the
miss-triggered `Update` is surfaced as a `KfOutcome.panicked` third
component instead of a return value. -/
def kfAuthenticate (cfg : KfCfg) (p : SSHParser) (users : List (String × User))
    (loadRes : Option String) (keysRes : Except String (List (String × AttrRecord)))
    (username : String) (challenge : Challenge) (sig : SSHSig) :
    (Option User × Option String) × List (String × User) × Nat × KfOutcome :=
  match kfVerify users challenge sig with
  | some u => ((some u, none), users, 0, .ok)
  | none =>
    match kfUpdate cfg p users loadRes keysRes with
    | (users', .err e) => ((none, some e), users', 1, .err e)
    | (users', .panicked) => ((none, none), users', 1, .panicked)
    | (users', .ok) => ((kfVerify users' challenge sig, none), users', 1, .ok)

/-! Concrete fixtures used by witnesses and counterexamples. -/

/-- A key under which every signature verifies. -/
def keyYes : SSHPublicKey := ⟨fun _ _ => true⟩

/-- A key under which no signature verifies. -/
def keyNo : SSHPublicKey := ⟨fun _ _ => false⟩

/-- A concrete instantiation of the parsing collaborators: strings of
length 3 decode to bytes that `ParsePublicKey` accepts (yielding
`keyNo`), the literal string `ak-yes` parses as an authorized-keys line
(yielding `keyYes`), and everything else fails both parses. -/
def demoParser : SSHParser where
  b64decode := fun s => [s.length]
  parsePublicKey := fun b => if b = [3] then some keyNo else none
  parseAuthorizedKey := fun s => if s = "ak-yes" then some keyYes else none

/-- A demo LDAP configuration with role support off. -/
def ldapCfgDemo : LdapCfg :=
  { userAttr := "uid", enableServerRoles := false, roleAttribute := "roleArn",
    defaultRole := "devRole", defaultRoleAttr := "drAttr" }

/-- A demo LDAP configuration with role support on. -/
def ldapCfgRoles : LdapCfg :=
  { ldapCfgDemo with enableServerRoles := true }

/-- A demo keys-file configuration with role support off. -/
def kfCfgDemo : KfCfg :=
  { userAttr := "username", enableServerRoles := false, roleAttr := "roles",
    defaultRole := "devRole", defaultRoleAttr := "defaultRoleAttr" }

/-- A demo keys-file configuration with role support on. -/
def kfCfgRoles : KfCfg :=
  { kfCfgDemo with enableServerRoles := true }

/-- A stale cached user used to probe snapshot replacement. -/
def bobUser : User :=
  { Username := "bob", SSHKeys := [keyNo], ARNs := [], DefaultRole := "devRole" }

/-- An LDAP entry for `alice` carrying the authorized-keys-style value
`ak-yes` that `demoParser` accepts. -/
def aliceEntry : LDAPEntry :=
  { dn := "cn=alice", attrs := [("uid", ["alice"]), ("sshPublicKey", ["ak-yes"])] }

/-- A group entry builder: a group DN carrying a role-ARN list under
the configured role attribute. -/
def groupEntry (dn : String) (arns : List String) : LDAPEntry :=
  { dn := dn, attrs := [("roleArn", arns)] }

/-- An LDAP entry for `alice` that is a member of `g1`, `g2` and `g3`. -/
def aliceMemberEntry : LDAPEntry :=
  { dn := "cn=alice",
    attrs := [("uid", ["alice"]), ("sshPublicKey", ["ak-yes"]),
              ("memberOf", ["g1", "g2", "g3"])] }

/-- A keys-file record for `alice` with no role list. -/
def aliceRec : AttrRecord := [("username", AttrValue.str "alice")]

/-- The user the keys-file engine publishes for `alice` from two
overlapping role records parsed by `demoParser`. -/
def aliceOut : User :=
  { Username := "alice", SSHKeys := [keyNo, keyYes],
    ARNs := ["r1", "r2", "r3"], DefaultRole := "devRole" }

/-- An LDAP entry for `alice` carrying three public-key values. -/
def threeKeyEntry (a b c : String) : LDAPEntry :=
  { dn := "cn=alice", attrs := [("uid", ["alice"]), ("sshPublicKey", [a, b, c])] }

/-- A keys-file record for `alice` carrying a per-record default
role. -/
def aliceDrRec (dr : String) : AttrRecord :=
  [("username", AttrValue.str "alice"), ("defaultRoleAttr", AttrValue.str dr)]

/-- A keys-file record for `alice` with a role list. -/
def aliceRolesRec (roles : List String) : AttrRecord :=
  [("username", AttrValue.str "alice"),
   ("roles", AttrValue.list (roles.map AttrValue.str))]

/-! Association-list lemmas: Go-map lookup after write. -/

theorem lookupAssoc_insert_self {α : Type} (l : List (String × α)) (k : String) (v : α) :
    lookupAssoc (insertAssoc l k v) k = some v := by
  simp [lookupAssoc, insertAssoc, List.find?]

theorem find?_filter_ne {α : Type} (l : List (String × α)) (k k' : String) (h : k' ≠ k) :
    List.find? (fun p => p.1 = k') (l.filter (fun p => p.1 ≠ k)) =
    List.find? (fun p => p.1 = k') l := by
  rw [List.find?_filter]
  have hfun : (fun a : String × α => decide (decide (a.1 ≠ k) = true ∧ decide (a.1 = k') = true))
      = (fun a : String × α => decide (a.1 = k')) := by
    funext a
    by_cases ha' : a.1 = k'
    · have hk : a.1 ≠ k := fun hc => h (ha'.symm.trans hc)
      simp [ha', hk, h]
    · simp [ha']
  rw [hfun]

theorem lookupAssoc_insert_ne {α : Type} (l : List (String × α)) (k k' : String) (v : α)
    (h : k' ≠ k) : lookupAssoc (insertAssoc l k v) k' = lookupAssoc l k' := by
  simp only [lookupAssoc, insertAssoc]
  rw [List.find?_cons_of_neg, find?_filter_ne l k k' h]
  simp only [decide_eq_true_eq]
  exact fun hc => h hc.symm

/-- C1: for both engines, a verification miss over the current snapshot
triggers exactly one `Update`; when that `Update` succeeds the call
returns the second scan's result over the new snapshot; a hit on the
first scan triggers no `Update` at all. -/
theorem authenticate_refresh_once
    (cfg : LdapCfg) (p : SSHParser) (st : LdapState)
    (gr sr : Except String (List LDAPEntry))
    (kcfg : KfCfg) (kusers : List (String × User))
    (lr : Option String) (kr : Except String (List (String × AttrRecord)))
    (username : String) (c : Challenge) (s : SSHSig) :
    (ldapVerify st.users c s = none →
      (ldapAuthenticate cfg p st gr sr username c s).2.2 = 1 ∧
      ∀ st', ldapUpdate cfg p st gr sr = (st', none) →
        ldapAuthenticate cfg p st gr sr username c s =
          ((ldapVerify st'.users c s, none), st', 1)) ∧
    (∀ u, ldapVerify st.users c s = some u →
      ldapAuthenticate cfg p st gr sr username c s = ((some u, none), st, 0)) ∧
    (kfVerify kusers c s = none →
      (kfAuthenticate kcfg p kusers lr kr username c s).2.2.1 = 1 ∧
      ∀ users', kfUpdate kcfg p kusers lr kr = (users', KfOutcome.ok) →
        kfAuthenticate kcfg p kusers lr kr username c s =
          ((kfVerify users' c s, none), users', 1, KfOutcome.ok)) ∧
    (∀ u, kfVerify kusers c s = some u →
      kfAuthenticate kcfg p kusers lr kr username c s =
        ((some u, none), kusers, 0, KfOutcome.ok)) := by
  refine ⟨?_, ?_, ?_, ?_⟩
  · intro hmiss
    constructor
    · simp only [ldapAuthenticate, hmiss]
      rcases hup : ldapUpdate cfg p st gr sr with ⟨st', e⟩
      cases e <;> simp
    · intro st' hup
      simp [ldapAuthenticate, hmiss, hup]
  · intro u hu
    simp [ldapAuthenticate, hu]
  · intro hmiss
    constructor
    · simp only [kfAuthenticate, hmiss]
      rcases hup : kfUpdate kcfg p kusers lr kr with ⟨users', o⟩
      cases o <;> simp
    · intro users' hup
      simp [kfAuthenticate, hmiss, hup]
  · intro u hu
    simp [kfAuthenticate, hu]

theorem authenticate_refresh_once_witness :
    ldapVerify (LdapState.mk [] []).users [7] [7] = none ∧
    (ldapAuthenticate ldapCfgDemo demoParser ⟨[], []⟩ (.ok []) (.ok [aliceEntry])
      "u" [7] [7]).2.2 = 1 ∧
    kfVerify [] [7] [7] = none ∧
    (kfAuthenticate kfCfgDemo demoParser [] none (.ok [("ak-yes", aliceRec)])
      "u" [7] [7]).2.2.1 = 1 :=
  ⟨rfl,
   ((authenticate_refresh_once ldapCfgDemo demoParser ⟨[], []⟩ (.ok []) (.ok [aliceEntry])
      kfCfgDemo [] none (.ok [("ak-yes", aliceRec)]) "u" [7] [7]).1 rfl).1,
   rfl,
   ((authenticate_refresh_once ldapCfgDemo demoParser ⟨[], []⟩ (.ok []) (.ok [aliceEntry])
      kfCfgDemo [] none (.ok [("ak-yes", aliceRec)]) "u" [7] [7]).2.2.1 rfl).1⟩

/-- C2: for both engines, `Authenticate` returns a non-nil error
exactly when the first scan missed and the miss-triggered `Update`
returned that error, and returns the non-error pair `(nil, nil)` when
the scan misses, the refresh succeeds and the rescan still finds no
verifying key. -/
theorem authenticate_nil_nil_on_miss
    (cfg : LdapCfg) (p : SSHParser) (st : LdapState)
    (gr sr : Except String (List LDAPEntry))
    (kcfg : KfCfg) (kusers : List (String × User))
    (lr : Option String) (kr : Except String (List (String × AttrRecord)))
    (username : String) (c : Challenge) (s : SSHSig) :
    (∀ e, (ldapAuthenticate cfg p st gr sr username c s).1.2 = some e ↔
      (ldapVerify st.users c s = none ∧ (ldapUpdate cfg p st gr sr).2 = some e)) ∧
    (ldapVerify st.users c s = none →
      ∀ st', ldapUpdate cfg p st gr sr = (st', none) →
      ldapVerify st'.users c s = none →
      (ldapAuthenticate cfg p st gr sr username c s).1 = (none, none)) ∧
    (∀ e, (kfAuthenticate kcfg p kusers lr kr username c s).1.2 = some e ↔
      (kfVerify kusers c s = none ∧ (kfUpdate kcfg p kusers lr kr).2 = KfOutcome.err e)) ∧
    (kfVerify kusers c s = none →
      ∀ users', kfUpdate kcfg p kusers lr kr = (users', KfOutcome.ok) →
      kfVerify users' c s = none →
      (kfAuthenticate kcfg p kusers lr kr username c s).1 = (none, none)) := by
  refine ⟨?_, ?_, ?_, ?_⟩
  · intro e
    cases hv : ldapVerify st.users c s with
    | some u => simp [ldapAuthenticate, hv]
    | none =>
      simp only [ldapAuthenticate, hv]
      rcases hup : ldapUpdate cfg p st gr sr with ⟨st', eo⟩
      cases eo <;> simp
  · intro hv st' hup hv'
    simp [ldapAuthenticate, hv, hup, hv']
  · intro e
    cases hv : kfVerify kusers c s with
    | some u => simp [kfAuthenticate, hv]
    | none =>
      simp only [kfAuthenticate, hv]
      rcases hup : kfUpdate kcfg p kusers lr kr with ⟨users', o⟩
      cases o <;> simp
  · intro hv users' hup hv'
    simp [kfAuthenticate, hv, hup, hv']

theorem authenticate_nil_nil_on_miss_witness :
    ldapVerify (LdapState.mk [] []).users [7] [7] = none ∧
    ldapUpdate ldapCfgDemo demoParser ⟨[], []⟩ (.ok []) (.ok []) = (⟨[], []⟩, none) ∧
    (ldapAuthenticate ldapCfgDemo demoParser ⟨[], []⟩ (.ok []) (.ok [])
      "u" [7] [7]).1 = (none, none) ∧
    kfVerify [] [7] [7] = none ∧
    kfUpdate kfCfgDemo demoParser [] none (.ok []) = ([], KfOutcome.ok) ∧
    (kfAuthenticate kfCfgDemo demoParser [] none (.ok []) "u" [7] [7]).1 = (none, none) :=
  ⟨rfl, rfl,
   (authenticate_nil_nil_on_miss ldapCfgDemo demoParser ⟨[], []⟩ (.ok []) (.ok [])
      kfCfgDemo [] none (.ok []) "u" [7] [7]).2.1 rfl ⟨[], []⟩ rfl rfl,
   rfl, rfl,
   (authenticate_nil_nil_on_miss ldapCfgDemo demoParser ⟨[], []⟩ (.ok []) (.ok [])
      kfCfgDemo [] none (.ok []) "u" [7] [7]).2.2.2 rfl [] rfl rfl⟩

/-- C9: for both engines and any fixed snapshot and adapter behaviour,
the entire outcome of `Authenticate` — returned user, returned error,
resulting state and number of `Update` calls — is identical for any two
username arguments: the username is never consulted by the verification
scan. -/
theorem authenticate_ignores_username
    (cfg : LdapCfg) (p : SSHParser) (st : LdapState)
    (gr sr : Except String (List LDAPEntry))
    (kcfg : KfCfg) (kusers : List (String × User))
    (lr : Option String) (kr : Except String (List (String × AttrRecord)))
    (u1 u2 : String) (c : Challenge) (s : SSHSig) :
    ldapAuthenticate cfg p st gr sr u1 c s = ldapAuthenticate cfg p st gr sr u2 c s ∧
    kfAuthenticate kcfg p kusers lr kr u1 c s = kfAuthenticate kcfg p kusers lr kr u2 c s :=
  ⟨rfl, rfl⟩

/-- C4: for both engines, an `Update` call that returns a non-nil error
leaves the users map observable through `Users()` exactly as it was
before the call. -/
theorem update_failure_preserves_users
    (cfg : LdapCfg) (p : SSHParser) (st : LdapState)
    (gr sr : Except String (List LDAPEntry))
    (kcfg : KfCfg) (kusers : List (String × User))
    (lr : Option String) (kr : Except String (List (String × AttrRecord))) :
    (∀ st' e, ldapUpdate cfg p st gr sr = (st', some e) → st'.users = st.users) ∧
    (∀ users' e, kfUpdate kcfg p kusers lr kr = (users', KfOutcome.err e) →
      users' = kusers) := by
  constructor
  · intro st' e hup
    simp only [ldapUpdate] at hup
    rcases hg : ldapGroupPhase cfg st gr with e' | groups
    · rw [hg] at hup
      simp only [Prod.mk.injEq] at hup
      rw [← hup.1]
    · rw [hg] at hup
      cases sr with
      | error e'' =>
        simp only [Prod.mk.injEq] at hup
        rw [← hup.1]
      | ok entries => simp at hup
  · intro users' e hup
    cases lr with
    | some e' =>
      simp only [kfUpdate, Prod.mk.injEq] at hup
      rw [← hup.1]
    | none =>
      cases kr with
      | error e'' =>
        simp only [kfUpdate, Prod.mk.injEq] at hup
        rw [← hup.1]
      | ok recs =>
        simp only [kfUpdate] at hup
        rcases hall : kfProcessAll kcfg p recs [] [] with u | users''
        · rw [hall] at hup
          simp only [Prod.mk.injEq] at hup
          rw [← hup.1]
        · rw [hall] at hup
          simp at hup

theorem update_failure_preserves_users_witness :
    ldapUpdate ldapCfgDemo demoParser ⟨[("bob", bobUser)], []⟩ (.ok []) (.error "down") =
      (⟨[("bob", bobUser)], []⟩, some "down") ∧
    (ldapUpdate ldapCfgDemo demoParser ⟨[("bob", bobUser)], []⟩ (.ok [])
      (.error "down")).1.users = [("bob", bobUser)] ∧
    kfUpdate kfCfgDemo demoParser [("bob", bobUser)] (some "gone") (.ok []) =
      ([("bob", bobUser)], KfOutcome.err "gone") ∧
    (kfUpdate kfCfgDemo demoParser [("bob", bobUser)] (some "gone") (.ok [])).1 =
      [("bob", bobUser)] :=
  ⟨rfl,
   (update_failure_preserves_users ldapCfgDemo demoParser ⟨[("bob", bobUser)], []⟩
      (.ok []) (.error "down") kfCfgDemo [("bob", bobUser)] (some "gone") (.ok [])).1
     ⟨[("bob", bobUser)], []⟩ "down" rfl,
   rfl,
   (update_failure_preserves_users ldapCfgDemo demoParser ⟨[("bob", bobUser)], []⟩
      (.ok []) (.error "down") kfCfgDemo [("bob", bobUser)] (some "gone") (.ok [])).2
     [("bob", bobUser)] "gone" rfl⟩

/-- C3 (code divergence): a successful LDAP `Update` does not rebuild
the users map from scratch — it patches the live map in place.  With a
prior snapshot containing `bob` and a directory scan returning only an
`alice` entry, the post-`Update` snapshot still contains `bob` even
though the new directory results never mention him (the keys-file
engine, by contrast, swaps in a freshly built map). -/
theorem ldap_update_keeps_stale_user :
    (ldapUpdate ldapCfgDemo demoParser ⟨[("bob", bobUser)], []⟩ (.ok [])
      (.ok [aliceEntry])).2 = none ∧
    lookupAssoc (ldapUpdate ldapCfgDemo demoParser ⟨[("bob", bobUser)], []⟩ (.ok [])
      (.ok [aliceEntry])).1.users "bob" = some bobUser ∧
    (kfUpdate kfCfgDemo demoParser [("bob", bobUser)] none
      (.ok [("ak-yes", aliceRec)])).2 = KfOutcome.ok ∧
    lookupAssoc (kfUpdate kfCfgDemo demoParser [("bob", bobUser)] none
      (.ok [("ak-yes", aliceRec)])).1 "bob" = none :=
  ⟨rfl, rfl, rfl, rfl⟩

/-- C5 (code divergence): in the keys-file engine a record whose
attribute map lacks the configured username attribute is not skipped —
the unchecked type assertion `userData[userAttr].(string)` panics and
aborts the whole `Update`; likewise for a non-string value there. -/
theorem kf_update_panics_on_missing_username :
    kfUpdate kfCfgDemo demoParser [] none
      (.ok [("ak-yes", [("roles", AttrValue.list [])])]) = ([], KfOutcome.panicked) ∧
    kfUpdate kfCfgDemo demoParser [] none
      (.ok [("ak-yes", [("username", AttrValue.list [])])]) = ([], KfOutcome.panicked) ∧
    kfUpdate kfCfgDemo demoParser [] none
      (.ok [("ak-yes", aliceRec), ("zz", [("roles", AttrValue.list [])])]) =
      ([], KfOutcome.panicked) :=
  ⟨rfl, rfl, rfl⟩

/-- C6 (counterexample): with role support enabled and group-role map
entries `g1 ↦ {A,B}` and `g2 ↦ {B,C}`, a user whose `memberOf` lists
`g1` and `g2` ends with ARN list `[A, B, B, C]` — the ARN `B` appears
twice, so the per-user ARNs are not duplicate-free. -/
theorem ldap_group_arns_duplicate :
    Option.map User.ARNs (lookupAssoc (ldapUpdate ldapCfgRoles demoParser ⟨[], []⟩
      (.ok [groupEntry "g1" ["A", "B"], groupEntry "g2" ["B", "C"]])
      (.ok [aliceMemberEntry])).1.users "alice") = some ["A", "B", "B", "C"] ∧
    (["A", "B", "B", "C"] : List String).count "B" = 2 ∧
    ¬ (["A", "B", "B", "C"] : List String).Nodup :=
  ⟨rfl, by decide, by decide⟩

/-- C6 (amended): with role support enabled, the per-user ARNs are the
concatenation of the member groups' ARN lists in `memberOf` order — so
for member groups carrying `l1` and `l2` the distinct ARNs are the set
union of the two lists, but an ARN occurring in several groups occurs
that many times — and a `memberOf` value naming a group absent from the
group-role map contributes nothing and raises no error. -/
theorem ldap_group_arns_concat (p : SSHParser) (l1 l2 : List String) :
    (ldapUpdate ldapCfgRoles p ⟨[], []⟩
      (.ok [groupEntry "g1" l1, groupEntry "g2" l2]) (.ok [aliceMemberEntry])).2 = none ∧
    Option.map User.ARNs (lookupAssoc (ldapUpdate ldapCfgRoles p ⟨[], []⟩
      (.ok [groupEntry "g1" l1, groupEntry "g2" l2])
      (.ok [aliceMemberEntry])).1.users "alice") = some (l1 ++ l2) ∧
    (l1 ++ l2).toFinset = l1.toFinset ∪ l2.toFinset := by
  refine ⟨rfl, ?_, ?_⟩
  · simp [ldapUpdate, ldapGroupPhase, ldapProcessEntry, ldapCfgRoles, ldapCfgDemo,
      aliceMemberEntry, groupEntry, getAttributeValue, getAttributeValues,
      lookupAssoc, insertAssoc, Except.map]
  · simp [List.toFinset_append]

theorem kfProcessRecord_defaultRole_stable (cfg : KfCfg) (p : SSHParser)
    (users : List (String × User)) (seen : List (String × String))
    (key : String) (d : AttrRecord) (users' : List (String × User))
    (seen' : List (String × String))
    (h : kfProcessRecord cfg p users seen key d = .ok (users', seen'))
    (uname : String) (usr : User) (hl : lookupAssoc users uname = some usr) :
    ∃ usr', lookupAssoc users' uname = some usr' ∧
      usr'.DefaultRole = usr.DefaultRole := by
  rcases hu : lookupAssoc d cfg.userAttr with _ | v
  · simp [kfProcessRecord, hu] at h
  cases v with
  | list l => simp [kfProcessRecord, hu] at h
  | str username =>
    simp only [kfProcessRecord, hu] at h
    rcases hk : parseKey p key with _ | sshKey
    · simp only [hk, Except.ok.injEq, Prod.mk.injEq] at h
      exact ⟨usr, by rw [← h.1]; exact hl, rfl⟩
    simp only [hk] at h
    set u0 : User := (match lookupAssoc users username with
      | some u => u
      | none =>
        { Username := username, SSHKeys := [], ARNs := [],
          DefaultRole :=
            match lookupAssoc d cfg.defaultRoleAttr with
            | some (.str s) => if s = "" then cfg.defaultRole else s
            | _ => cfg.defaultRole }) with hu0
    by_cases hroles : cfg.enableServerRoles = true
    · rw [if_pos hroles] at h
      rcases hrv : lookupAssoc d cfg.roleAttr with _ | rv
      · simp only [hrv] at h
        exact Except.noConfusion h
      · cases rv with
        | str s =>
          simp only [hrv] at h
          exact Except.noConfusion h
        | list roles =>
        simp only [hrv] at h
        rcases hpr : kfProcessRoles username roles u0.ARNs seen with u | pr
        · simp only [hpr] at h
          exact Except.noConfusion h
        rcases pr with ⟨arns', seen2⟩
        simp only [hpr, Except.ok.injEq, Prod.mk.injEq] at h
        by_cases huname : uname = username
        · subst huname
          have hu0usr : u0 = usr := by rw [hu0, hl]
          refine ⟨_, by rw [← h.1]; exact lookupAssoc_insert_self _ _ _, ?_⟩
          rw [hu0usr]
        · exact ⟨usr, by rw [← h.1, lookupAssoc_insert_ne _ _ _ _ huname]; exact hl, rfl⟩
    · rw [if_neg hroles] at h
      simp only [Except.ok.injEq, Prod.mk.injEq] at h
      by_cases huname : uname = username
      · subst huname
        have hu0usr : u0 = usr := by rw [hu0, hl]
        refine ⟨_, by rw [← h.1]; exact lookupAssoc_insert_self _ _ _, ?_⟩
        rw [hu0usr]
      · exact ⟨usr, by rw [← h.1, lookupAssoc_insert_ne _ _ _ _ huname]; exact hl, rfl⟩

theorem kfProcessAll_defaultRole_stable (cfg : KfCfg) (p : SSHParser) :
    ∀ (recs : List (String × AttrRecord)) (users : List (String × User))
      (seen : List (String × String)) (users' : List (String × User))
      (uname : String) (usr : User),
    kfProcessAll cfg p recs users seen = .ok users' →
    lookupAssoc users uname = some usr →
    ∃ usr', lookupAssoc users' uname = some usr' ∧
      usr'.DefaultRole = usr.DefaultRole := by
  intro recs
  induction recs with
  | nil =>
    intro users seen users' uname usr h hl
    simp only [kfProcessAll, Except.ok.injEq] at h
    exact ⟨usr, by rw [← h]; exact hl, rfl⟩
  | cons r0 rest ih =>
    intro users seen users' uname usr h hl
    rcases r0 with ⟨key, d⟩
    simp only [kfProcessAll] at h
    rcases hr : kfProcessRecord cfg p users seen key d with u | pr
    · simp only [hr] at h
      exact Except.noConfusion h
    rcases pr with ⟨users1, seen1⟩
    simp only [hr] at h
    obtain ⟨usr1, hl1, hd1⟩ :=
      kfProcessRecord_defaultRole_stable cfg p users seen key d users1 seen1 hr uname usr hl
    obtain ⟨usr2, hl2, hd2⟩ := ih users1 seen1 users' uname usr1 h hl1
    exact ⟨usr2, hl2, hd2.trans hd1⟩

/-- C10: in the keys-file engine, once a record has created a user's
accumulating record, no later record in the same `Update` changes that
user's `DefaultRole` (first conjunct: `DefaultRole` is stable across
the rest of the record loop); so when two records with parseable keys
resolve to the same username, the published `DefaultRole` is the one
resolved from the record that first created the accumulating record in
iteration order, and reversing the iteration order over the same two
records flips the published `DefaultRole`. -/
theorem kf_default_role_first_record (p : SSHParser) (k1 k2 : String)
    (K1 K2 : SSHPublicKey)
    (h1 : parseKey p k1 = some K1) (h2 : parseKey p k2 = some K2) :
    (∀ (cfg : KfCfg) (recs : List (String × AttrRecord))
       (users : List (String × User)) (seen : List (String × String))
       (users' : List (String × User)) (uname : String) (usr : User),
      kfProcessAll cfg p recs users seen = .ok users' →
      lookupAssoc users uname = some usr →
      ∃ usr', lookupAssoc users' uname = some usr' ∧
        usr'.DefaultRole = usr.DefaultRole) ∧
    Option.map User.DefaultRole (lookupAssoc
      (kfUpdate kfCfgDemo p [] none
        (.ok [(k1, aliceDrRec "roleA"), (k2, aliceDrRec "roleB")])).1 "alice") =
      some "roleA" ∧
    Option.map User.DefaultRole (lookupAssoc
      (kfUpdate kfCfgDemo p [] none
        (.ok [(k2, aliceDrRec "roleB"), (k1, aliceDrRec "roleA")])).1 "alice") =
      some "roleB" := by
  refine ⟨fun cfg => kfProcessAll_defaultRole_stable cfg p, ?_, ?_⟩ <;>
    simp [kfUpdate, kfProcessAll, kfProcessRecord, kfCfgDemo, aliceDrRec,
      lookupAssoc, insertAssoc, h1, h2]

theorem kf_default_role_first_record_witness :
    parseKey demoParser "abc" = some keyNo ∧
    parseKey demoParser "ak-yes" = some keyYes ∧
    Option.map User.DefaultRole (lookupAssoc
      (kfUpdate kfCfgDemo demoParser [] none
        (.ok [("abc", aliceDrRec "roleA"), ("ak-yes", aliceDrRec "roleB")])).1 "alice") =
      some "roleA" ∧
    Option.map User.DefaultRole (lookupAssoc
      (kfUpdate kfCfgDemo demoParser [] none
        (.ok [("ak-yes", aliceDrRec "roleB"), ("abc", aliceDrRec "roleA")])).1 "alice") =
      some "roleB" :=
  ⟨rfl, rfl,
   (kf_default_role_first_record demoParser "abc" "ak-yes" keyNo keyYes rfl rfl).2.1,
   (kf_default_role_first_record demoParser "abc" "ak-yes" keyNo keyYes rfl rfl).2.2⟩

/-- C8: both engines parse a key value by trying `ParsePublicKey` on
the base64-decoded material first and falling back to
`ParseAuthorizedKey` on the raw value; a value that parses under
neither form is skipped without aborting the update, so an entry (or a
record group for one username) with one unparseable key among two valid
ones publishes a user holding exactly the two valid keys. -/
theorem malformed_key_skipped (p : SSHParser) (kg1 kb kg2 : String) (K1 K2 : SSHPublicKey)
    (hg1 : parseKey p kg1 = some K1) (hb : parseKey p kb = none)
    (hg2 : parseKey p kg2 = some K2) :
    (∀ s k, p.parsePublicKey (p.b64decode s) = some k → parseKey p s = some k) ∧
    (∀ s, p.parsePublicKey (p.b64decode s) = none → parseKey p s = p.parseAuthorizedKey s) ∧
    ((ldapUpdate ldapCfgDemo p ⟨[], []⟩ (.ok []) (.ok [threeKeyEntry kg1 kb kg2])).2 = none ∧
      Option.map User.SSHKeys (lookupAssoc (ldapUpdate ldapCfgDemo p ⟨[], []⟩ (.ok [])
        (.ok [threeKeyEntry kg1 kb kg2])).1.users "alice") = some [K1, K2]) ∧
    ((kfUpdate kfCfgDemo p [] none
        (.ok [(kg1, aliceRec), (kb, aliceRec), (kg2, aliceRec)])).2 = KfOutcome.ok ∧
      Option.map User.SSHKeys (lookupAssoc (kfUpdate kfCfgDemo p [] none
        (.ok [(kg1, aliceRec), (kb, aliceRec), (kg2, aliceRec)])).1 "alice") =
        some [K1, K2]) := by
  refine ⟨?_, ?_, ⟨rfl, ?_⟩, ?_, ?_⟩
  · intro s k h
    simp [parseKey, h]
  · intro s h
    simp [parseKey, h]
  · simp [ldapUpdate, ldapGroupPhase, ldapProcessEntry, ldapCfgDemo, threeKeyEntry,
      getAttributeValue, getAttributeValues, lookupAssoc, insertAssoc, Except.map,
      hg1, hb, hg2]
  · simp [kfUpdate, kfProcessAll, kfProcessRecord, kfCfgDemo, aliceRec,
      lookupAssoc, insertAssoc, hg1, hb, hg2]
  · simp [kfUpdate, kfProcessAll, kfProcessRecord, kfCfgDemo, aliceRec,
      lookupAssoc, insertAssoc, hg1, hb, hg2]

theorem malformed_key_skipped_witness :
    parseKey demoParser "abc" = some keyNo ∧
    parseKey demoParser "zz" = none ∧
    parseKey demoParser "ak-yes" = some keyYes ∧
    Option.map User.SSHKeys (lookupAssoc (ldapUpdate ldapCfgDemo demoParser ⟨[], []⟩ (.ok [])
      (.ok [threeKeyEntry "abc" "zz" "ak-yes"])).1.users "alice") = some [keyNo, keyYes] ∧
    Option.map User.SSHKeys (lookupAssoc (kfUpdate kfCfgDemo demoParser [] none
      (.ok [("abc", aliceRec), ("zz", aliceRec), ("ak-yes", aliceRec)])).1 "alice") =
      some [keyNo, keyYes] :=
  ⟨rfl, rfl, rfl,
   (malformed_key_skipped demoParser "abc" "zz" "ak-yes" keyNo keyYes rfl rfl rfl).2.2.1.2,
   (malformed_key_skipped demoParser "abc" "zz" "ak-yes" keyNo keyYes rfl rfl rfl).2.2.2.2⟩

/-! Invariant lemmas for the keys-file role-deduplication loop. -/

theorem kfProcessRoles_seen_mono (uname : String) (roles : List AttrValue) :
    ∀ arns seen arns' seen',
    kfProcessRoles uname roles arns seen = .ok (arns', seen') →
    ∀ pr, pr ∈ seen → pr ∈ seen' := by
  induction roles with
  | nil =>
    intro arns seen arns' seen' h pr hpr
    simp only [kfProcessRoles, Except.ok.injEq, Prod.mk.injEq] at h
    rw [← h.2]
    exact hpr
  | cons v rest ih =>
    intro arns seen arns' seen' h pr hpr
    cases v with
    | str r =>
      simp only [kfProcessRoles] at h
      by_cases hmem : (uname, r) ∈ seen
      · rw [if_pos hmem] at h
        exact ih arns seen arns' seen' h pr hpr
      · rw [if_neg hmem] at h
        exact ih (arns ++ [r]) ((uname, r) :: seen) arns' seen' h pr
          (List.mem_cons_of_mem _ hpr)
    | list l => simp [kfProcessRoles] at h

theorem kfProcessRoles_nodup (uname : String) (roles : List AttrValue) :
    ∀ arns seen arns' seen',
    kfProcessRoles uname roles arns seen = .ok (arns', seen') →
    arns.Nodup → (∀ r ∈ arns, (uname, r) ∈ seen) →
    arns'.Nodup ∧ ∀ r ∈ arns', (uname, r) ∈ seen' := by
  induction roles with
  | nil =>
    intro arns seen arns' seen' h h1 h2
    simp only [kfProcessRoles, Except.ok.injEq, Prod.mk.injEq] at h
    rw [← h.1, ← h.2]
    exact ⟨h1, h2⟩
  | cons v rest ih =>
    intro arns seen arns' seen' h h1 h2
    cases v with
    | str r =>
      simp only [kfProcessRoles] at h
      by_cases hmem : (uname, r) ∈ seen
      · rw [if_pos hmem] at h
        exact ih arns seen arns' seen' h h1 h2
      · rw [if_neg hmem] at h
        refine ih (arns ++ [r]) ((uname, r) :: seen) arns' seen' h ?_ ?_
        · have hr : r ∉ arns := fun hc => hmem (h2 r hc)
          simp [List.nodup_append, h1, hr]
        · intro r' hr'
          rcases List.mem_append.mp hr' with hin | hin
          · exact List.mem_cons_of_mem _ (h2 r' hin)
          · rw [List.mem_singleton.mp hin]
            exact List.mem_cons_self _ _
    | list l => simp [kfProcessRoles] at h

theorem kfProcessRecord_inv (cfg : KfCfg) (p : SSHParser)
    (users : List (String × User)) (seen : List (String × String))
    (key : String) (d : AttrRecord) (users' : List (String × User))
    (seen' : List (String × String))
    (h : kfProcessRecord cfg p users seen key d = .ok (users', seen'))
    (hinv : ∀ uname u, lookupAssoc users uname = some u →
      u.ARNs.Nodup ∧ ∀ r ∈ u.ARNs, (uname, r) ∈ seen) :
    ∀ uname u, lookupAssoc users' uname = some u →
      u.ARNs.Nodup ∧ ∀ r ∈ u.ARNs, (uname, r) ∈ seen' := by
  rcases hu : lookupAssoc d cfg.userAttr with _ | v
  · simp [kfProcessRecord, hu] at h
  cases v with
  | list l => simp [kfProcessRecord, hu] at h
  | str username =>
    simp only [kfProcessRecord, hu] at h
    rcases hk : parseKey p key with _ | sshKey
    · simp only [hk, Except.ok.injEq, Prod.mk.injEq] at h
      rw [← h.1, ← h.2]
      exact hinv
    simp only [hk] at h
    set u0 : User := (match lookupAssoc users username with
      | some u => u
      | none =>
        { Username := username, SSHKeys := [], ARNs := [],
          DefaultRole :=
            match lookupAssoc d cfg.defaultRoleAttr with
            | some (.str s) => if s = "" then cfg.defaultRole else s
            | _ => cfg.defaultRole }) with hu0
    have hu0arns : u0.ARNs.Nodup ∧ ∀ r ∈ u0.ARNs, (username, r) ∈ seen := by
      rw [hu0]
      rcases hfound : lookupAssoc users username with _ | uold
      · simp
      · simpa using hinv username uold hfound
    by_cases hroles : cfg.enableServerRoles = true
    · rw [if_pos hroles] at h
      rcases hrv : lookupAssoc d cfg.roleAttr with _ | rv
      · simp only [hrv] at h
        exact Except.noConfusion h
      · cases rv with
        | str s =>
          simp only [hrv] at h
          exact Except.noConfusion h
        | list roles =>
        simp only [hrv] at h
        rcases hpr : kfProcessRoles username roles u0.ARNs seen with u | pr
        · simp only [hpr] at h
          exact Except.noConfusion h
        rcases pr with ⟨arns', seen2⟩
        simp only [hpr, Except.ok.injEq, Prod.mk.injEq] at h
        have hroles' := kfProcessRoles_nodup username roles _ seen arns' seen2 hpr
          (by simpa using hu0arns.1) (by simpa using hu0arns.2)
        have hmono := kfProcessRoles_seen_mono username roles _ seen arns' seen2 hpr
        intro uname u hlook
        rw [← h.1] at hlook
        rw [← h.2]
        by_cases huname : uname = username
        · subst huname
          rw [lookupAssoc_insert_self] at hlook
          cases hlook
          simpa using hroles'
        · rw [lookupAssoc_insert_ne _ _ _ _ huname] at hlook
          have := hinv uname u hlook
          exact ⟨this.1, fun r hr => hmono (uname, r) (this.2 r hr)⟩
    · rw [if_neg hroles] at h
      simp only [Except.ok.injEq, Prod.mk.injEq] at h
      intro uname u hlook
      rw [← h.1] at hlook
      rw [← h.2]
      by_cases huname : uname = username
      · subst huname
        rw [lookupAssoc_insert_self] at hlook
        cases hlook
        simpa using hu0arns
      · rw [lookupAssoc_insert_ne _ _ _ _ huname] at hlook
        exact hinv uname u hlook

theorem kfProcessAll_inv (cfg : KfCfg) (p : SSHParser) :
    ∀ (recs : List (String × AttrRecord)) (users : List (String × User))
      (seen : List (String × String)) (users' : List (String × User)),
    kfProcessAll cfg p recs users seen = .ok users' →
    (∀ uname u, lookupAssoc users uname = some u →
      u.ARNs.Nodup ∧ ∀ r ∈ u.ARNs, (uname, r) ∈ seen) →
    ∀ uname u, lookupAssoc users' uname = some u → u.ARNs.Nodup := by
  intro recs
  induction recs with
  | nil =>
    intro users seen users' h hinv
    simp only [kfProcessAll, Except.ok.injEq] at h
    rw [← h]
    exact fun uname u hl => (hinv uname u hl).1
  | cons r0 rest ih =>
    intro users seen users' h hinv
    rcases r0 with ⟨key, d⟩
    simp only [kfProcessAll] at h
    rcases hr : kfProcessRecord cfg p users seen key d with u | pr
    · simp only [hr] at h
      exact Except.noConfusion h
    rcases pr with ⟨users1, seen1⟩
    simp only [hr] at h
    exact ih users1 seen1 users' h
      (kfProcessRecord_inv cfg p users seen key d users1 seen1 hr hinv)

/-- C7: in the keys-file engine with role support enabled, any user
published by a successful `Update` has duplicate-free ARNs — the
per-update `(username, role)` seen-set prevents any duplicate — and in
particular two records for `alice` with overlapping role lists
`[r1, r2]` and `[r2, r3]` publish `alice` with ARNs exactly
`[r1, r2, r3]`, each distinct role once. -/
theorem kf_update_arns_nodup (cfg : KfCfg) (p : SSHParser)
    (users0 users' : List (String × User)) (lr : Option String)
    (kr : Except String (List (String × AttrRecord)))
    (h : kfUpdate cfg p users0 lr kr = (users', KfOutcome.ok)) :
    (∀ uname u, lookupAssoc users' uname = some u → u.ARNs.Nodup) ∧
    Option.map User.ARNs (lookupAssoc (kfUpdate kfCfgRoles demoParser [] none
      (.ok [("abc", aliceRolesRec ["r1", "r2"]), ("ak-yes", aliceRolesRec ["r2", "r3"])])).1
      "alice") = some ["r1", "r2", "r3"] := by
  constructor
  · cases lr with
    | some e => simp [kfUpdate] at h
    | none =>
      cases kr with
      | error e => simp [kfUpdate] at h
      | ok recs =>
        simp only [kfUpdate] at h
        rcases hall : kfProcessAll cfg p recs [] [] with u | users1
        · simp only [hall] at h
          simp at h
        · simp only [hall, Prod.mk.injEq] at h
          rw [← h.1]
          refine kfProcessAll_inv cfg p recs [] [] users1 hall ?_
          intro uname u hl
          simp [lookupAssoc] at hl
  · rfl

theorem kf_update_arns_nodup_witness :
    lookupAssoc (kfUpdate kfCfgRoles demoParser [] none
      (.ok [("abc", aliceRolesRec ["r1", "r2"]), ("ak-yes", aliceRolesRec ["r2", "r3"])])).1
      "alice" = some aliceOut ∧
    aliceOut.ARNs.Nodup :=
  ⟨rfl,
   (kf_update_arns_nodup kfCfgRoles demoParser [] [("alice", aliceOut)] none
      (.ok [("abc", aliceRolesRec ["r1", "r2"]), ("ak-yes", aliceRolesRec ["r2", "r3"])])
      rfl).1 "alice" aliceOut rfl⟩

end Hologram
